import Mathlib

/-!
Verification development for the article-accumulator core of `scrap.py`.

The repository's core consists of:
* `clean_text`          — whitespace normalisation of extracted text,
* `generate_article_id` — md5 hex digest of `title + "_" + journal + "_" + date`,
* `load_existing_articles` — read of the persisted master store into an
  identity-keyed, insertion-ordered mapping,
* `migrate_old_format`  — one-time upgrade of a legacy (id-less) store file,
* `save_to_master`      — merge of a fetched batch into the master store.

All definitions below are shallow embeddings of those Python functions;
machine integers are `Nat` with explicit `% 2^32` where overflow matters,
fallible code returns `Except`.
-/

/-! ## Whitespace predicate and `clean_text`

Python's `re.sub(r'\s+', ' ', text)` (Unicode `\s`), `str.replace` for the
two single-character patterns, and `str.strip()`.  `isWs` lists the Unicode
whitespace code points recognised by Python's `re`/`str.isspace`.
-/

def isWs (c : Char) : Bool :=
  c = ' ' || c = '\t' || c = '\n' || c = '\r' ||
  c.toNat = 0x0b || c.toNat = 0x0c ||
  (0x1c ≤ c.toNat && c.toNat ≤ 0x1f) || c.toNat = 0x85 || c.toNat = 0xa0 ||
  c.toNat = 0x1680 || (0x2000 ≤ c.toNat && c.toNat ≤ 0x200a) ||
  c.toNat = 0x2028 || c.toNat = 0x2029 || c.toNat = 0x202f ||
  c.toNat = 0x205f || c.toNat = 0x3000

/-- `re.sub(r'\s+', ' ', ·)` on a character list: each maximal run of
whitespace becomes a single `' '`.  The flag records whether the previous
character belonged to a whitespace run. -/
def collapseWsAux : Bool → List Char → List Char
  | _, [] => []
  | prevWs, c :: rest =>
    if isWs c then
      if prevWs then collapseWsAux true rest
      else ' ' :: collapseWsAux true rest
    else c :: collapseWsAux false rest

def collapseWs (l : List Char) : List Char := collapseWsAux false l

/-- `str.strip()`, left side: drop leading whitespace. -/
def dropLeadWs (l : List Char) : List Char := l.dropWhile isWs

/-- `str.strip()`, right side: drop trailing whitespace. -/
def dropTrailWs : List Char → List Char
  | [] => []
  | c :: t =>
    let r := dropTrailWs t
    if r.isEmpty && isWs c then [] else c :: r

/-- `clean_text` from `scrap.py`: `None` and `""` are falsy and yield `""`;
otherwise collapse whitespace runs, replace `'\n'` and `'\r'` by spaces,
and strip. -/
def clean_text (text : Option String) : String :=
  match text with
  | none => ""
  | some s =>
    if s.data.isEmpty then ""
    else
      let t1 := collapseWs s.data
      let t2 := t1.map (fun c => if c = '\n' then ' ' else c)
      let t3 := t2.map (fun c => if c = '\r' then ' ' else c)
      String.mk (dropTrailWs (dropLeadWs t3))

/-! ## MD5 over byte lists

Faithful implementation of MD5 (as used by Python's `hashlib.md5`) over
`List Nat` bytes, words as `Nat` reduced `% 2^32`. -/

def M32 : Nat := 4294967296

def bnot32 (x : Nat) : Nat := 4294967295 ^^^ x

def rotl32 (x s : Nat) : Nat := ((x <<< s) ||| (x >>> (32 - s))) % M32

/-- Per-round constants `floor(2^32 * abs(sin(i+1)))` of RFC 1321. -/
def md5K : List Nat :=
  [0xd76aa478, 0xe8c7b756, 0x242070db, 0xc1bdceee,
   0xf57c0faf, 0x4787c62a, 0xa8304613, 0xfd469501,
   0x698098d8, 0x8b44f7af, 0xffff5bb1, 0x895cd7be,
   0x6b901122, 0xfd987193, 0xa679438e, 0x49b40821,
   0xf61e2562, 0xc040b340, 0x265e5a51, 0xe9b6c7aa,
   0xd62f105d, 0x02441453, 0xd8a1e681, 0xe7d3fbc8,
   0x21e1cde6, 0xc33707d6, 0xf4d50d87, 0x455a14ed,
   0xa9e3e905, 0xfcefa3f8, 0x676f02d9, 0x8d2a4c8a,
   0xfffa3942, 0x8771f681, 0x6d9d6122, 0xfde5380c,
   0xa4beea44, 0x4bdecfa9, 0xf6bb4b60, 0xbebfbc70,
   0x289b7ec6, 0xeaa127fa, 0xd4ef3085, 0x04881d05,
   0xd9d4d039, 0xe6db99e5, 0x1fa27cf8, 0xc4ac5665,
   0xf4292244, 0x432aff97, 0xab9423a7, 0xfc93a039,
   0x655b59c3, 0x8f0ccc92, 0xffeff47d, 0x85845dd1,
   0x6fa87e4f, 0xfe2ce6e0, 0xa3014314, 0x4e0811a1,
   0xf7537e82, 0xbd3af235, 0x2ad7d2bb, 0xeb86d391]

/-- Per-round left-rotation amounts of RFC 1321. -/
def md5S : List Nat :=
  [7, 12, 17, 22, 7, 12, 17, 22, 7, 12, 17, 22, 7, 12, 17, 22,
   5, 9, 14, 20, 5, 9, 14, 20, 5, 9, 14, 20, 5, 9, 14, 20,
   4, 11, 16, 23, 4, 11, 16, 23, 4, 11, 16, 23, 4, 11, 16, 23,
   6, 10, 15, 21, 6, 10, 15, 21, 6, 10, 15, 21, 6, 10, 15, 21]

/-- `n` little-endian bytes of `v`. -/
def leBytes : Nat → Nat → List Nat
  | 0, _ => []
  | n + 1, v => (v % 256) :: leBytes n (v / 256)

/-- MD5 padding: `0x80`, zeros to 56 mod 64, then the 64-bit little-endian
bit length. -/
def md5Pad (msg : List Nat) : List Nat :=
  let len := msg.length
  let k := (120 - ((len + 1) % 64)) % 64
  msg ++ 0x80 :: List.replicate k 0 ++ leBytes 8 ((len * 8) % (2 ^ 64))

/-- Split a padding-completed byte list (whose length is a multiple of 64)
into its 64-byte blocks; structural recursion on the block count. -/
def chunk64Go : Nat → List Nat → List (List Nat)
  | 0, _ => []
  | n + 1, l => l.take 64 :: chunk64Go n (l.drop 64)

def chunk64 (l : List Nat) : List (List Nat) := chunk64Go (l.length / 64) l

/-- 32-bit little-endian words of a block. -/
def wordsOf : List Nat → List Nat
  | b0 :: b1 :: b2 :: b3 :: rest =>
      (b0 + 256 * (b1 + 256 * (b2 + 256 * b3))) :: wordsOf rest
  | _ => []

/-- One MD5 round step `i` on state `(a,b,c,d)` with message words `X`. -/
def md5Step (X : List Nat) (st : Nat × Nat × Nat × Nat) (i : Nat) :
    Nat × Nat × Nat × Nat :=
  let (a, b, c, d) := st
  let fg : Nat × Nat :=
    if i < 16 then ((b &&& c) ||| (bnot32 b &&& d), i)
    else if i < 32 then ((d &&& b) ||| (bnot32 d &&& c), (5 * i + 1) % 16)
    else if i < 48 then (b ^^^ c ^^^ d, (3 * i + 5) % 16)
    else (c ^^^ (b ||| bnot32 d), (7 * i) % 16)
  let tmp := (a + fg.1 + md5K.getD i 0 + X.getD fg.2 0) % M32
  (d, (b + rotl32 tmp (md5S.getD i 0)) % M32, b, c)

/-- Process one 64-byte block. -/
def md5Block (st : Nat × Nat × Nat × Nat) (block : List Nat) :
    Nat × Nat × Nat × Nat :=
  let X := wordsOf block
  let r := (List.range 64).foldl (md5Step X) st
  ((st.1 + r.1) % M32, (st.2.1 + r.2.1) % M32,
   (st.2.2.1 + r.2.2.1) % M32, (st.2.2.2 + r.2.2.2) % M32)

def md5Init : Nat × Nat × Nat × Nat :=
  (0x67452301, 0xefcdab89, 0x98badcfe, 0x10325476)

def md5Core (msg : List Nat) : Nat × Nat × Nat × Nat :=
  (chunk64 (md5Pad msg)).foldl md5Block md5Init

/-- The 16 digest bytes (little-endian rendering of the final state). -/
def md5Digest (msg : List Nat) : List Nat :=
  let st := md5Core msg
  leBytes 4 st.1 ++ leBytes 4 st.2.1 ++ leBytes 4 st.2.2.1 ++ leBytes 4 st.2.2.2

def hexChars : List Char := "0123456789abcdef".data

def hexDig (n : Nat) : Char := hexChars.getD (n % 16) '0'

def byteHex (b : Nat) : List Char := [hexDig (b / 16), hexDig b]

/-- Lowercase hex digest string, as `hashlib.md5(...).hexdigest()`. -/
def md5Hex (msg : List Nat) : String :=
  String.mk ((md5Digest msg).map byteHex).flatten

/-- UTF-8 encoding of one character (Python `str.encode()`). -/
def utf8Bytes (c : Char) : List Nat :=
  let n := c.toNat
  if n < 0x80 then [n]
  else if n < 0x800 then
    [0xc0 ||| (n >>> 6), 0x80 ||| (n &&& 0x3f)]
  else if n < 0x10000 then
    [0xe0 ||| (n >>> 12), 0x80 ||| ((n >>> 6) &&& 0x3f), 0x80 ||| (n &&& 0x3f)]
  else
    [0xf0 ||| (n >>> 18), 0x80 ||| ((n >>> 12) &&& 0x3f),
     0x80 ||| ((n >>> 6) &&& 0x3f), 0x80 ||| (n &&& 0x3f)]

/-- UTF-8 bytes of a string. -/
def strBytes (s : String) : List Nat := (s.data.map utf8Bytes).flatten

/-- `generate_article_id` from `scrap.py`:
`hashlib.md5(f"{title}_{journal}_{date}".encode()).hexdigest()`. -/
def generate_article_id (title journal date : String) : String :=
  md5Hex (strBytes (title ++ "_" ++ journal ++ "_" ++ date))

/-! ## The persisted CSV store and identity-keyed mappings

A parsed CSV file is a header plus rows of field values; `none` models a
path that does not exist.  Records (`csv.DictReader` rows, and the dicts a
fetch produces) are insertion-ordered association lists, as Python dicts
are.  `aset` is Python dict assignment: it updates the value in place when
the key is present and appends otherwise. -/

structure CsvFile where
  header : List String
  rows : List (List String)
deriving DecidableEq, Repr

abbrev Record : Type := List (String × String)

def alookup {α : Type} : List (String × α) → String → Option α
  | [], _ => none
  | (k, v) :: t, key => if k = key then some v else alookup t key

def aset {α : Type} : List (String × α) → String → α → List (String × α)
  | [], k, v => [(k, v)]
  | (k1, v1) :: t, k, v =>
    if k1 = k then (k, v) :: t else (k1, v1) :: aset t k v

/-- `row.get(k, d)` -/
def rgetD (r : Record) (k d : String) : String := (alookup r k).getD d

/-- `k in row` -/
def rhasKey (r : Record) (k : String) : Bool := (alookup r k).isSome

/-- The identity-keyed master mapping built by the loader. -/
abbrev Dict : Type := List (String × Record)

/-- A `csv.DictReader` row: header fields zipped with the row's values. -/
def recordOfRow (header : List String) (row : List String) : Record :=
  header.zip row

/-- The final schema's column list, the `fieldnames` of every write in
`scrap.py`. -/
def stdFields : List String :=
  ["id", "title", "journal", "date", "abstract", "scraped_date"]

/-- The loader's defensive fallback (lines 191-197): a row with no `id`
field gets one computed from its `(title, journal, date)`. -/
def withId (r : Record) : Record :=
  if rhasKey r "id" then r
  else aset r "id" (generate_article_id (rgetD r "title" "") (rgetD r "journal" "")
        (rgetD r "date" ""))

/-- The `(identity, record)` pairs the loader inserts, in file order. -/
def loadPairs (f : CsvFile) : List (String × Record) :=
  f.rows.map (fun row =>
    let r := withId (recordOfRow f.header row)
    (rgetD r "id" "", r))

/-- `load_existing_articles` from `scrap.py`: empty mapping when the file
does not exist, otherwise a fold of Python-dict insertion over the rows. -/
def load_existing_articles : Option CsvFile → Dict
  | none => []
  | some f => (loadPairs f).foldl (fun m p => aset m p.1 p.2) []

/-! ### Legacy-format detection and `migrate_old_format`

The source checks `'id' not in content.split('\n')[0]`: a raw substring
test on the first line of the file, which is the comma-joined header
(header fields carry no embedded newlines or commas, so no quoting
intervenes, and `'i'` cannot abut `'d'` across a comma). -/

def joinComma : List (List Char) → List Char
  | [] => []
  | [h] => h
  | h :: t => h ++ ',' :: joinComma t

/-- Substring test `pat in s` on character lists. -/
def hasSub (pat : List Char) : List Char → Bool
  | [] => pat.isEmpty
  | c :: t => pat.isPrefixOf (c :: t) || hasSub pat t

def headerLine (f : CsvFile) : List Char := joinComma (f.header.map String.data)

/-- `'id' in content.split('\n')[0]` -/
def isCurrentFmt (f : CsvFile) : Bool := hasSub ['i', 'd'] (headerLine f)

/-- One output row of `csv.DictWriter` (`extrasaction='raise'`,
`restval=''`): error when the record carries a key outside `fieldnames`,
else the record's values in `fieldnames` order. -/
def dictToRow (fns : List String) (r : Record) : Except String (List String) :=
  if r.all (fun p => fns.contains p.1) then
    Except.ok (fns.map (fun k => rgetD r k ""))
  else Except.error "ValueError"

def rowsOut (fns : List String) (rs : List Record) :
    Except String (List (List String)) :=
  rs.mapM (dictToRow fns)

/-- Value list of a record in `stdFields` order. -/
def toRow (fns : List String) (r : Record) : List String :=
  fns.map (fun k => rgetD r k "")

/-- The per-row body of the migration loop (lines 217-225): read the row
under the legacy header, stamp `id` (derived from title/journal/date with
empty-string defaults) and `scraped_date`. -/
def migrateRow (header : List String) (today : String) (row : List String) :
    Record :=
  let r := recordOfRow header row
  let r1 := aset r "id" (generate_article_id (rgetD r "title" "")
    (rgetD r "journal" "") (rgetD r "date" ""))
  aset r1 "scraped_date" today

/-- `migrate_old_format` from `scrap.py`, parameterised by the run date
(`datetime.now().strftime("%Y-%m-%d")`).  Returns the resulting file state
and the list of file writes performed (the Python exception on a stray
field aborts the run and is modelled as `Except.error`). -/
def migrate_old_format (file : Option CsvFile) (today : String) :
    Except String (Option CsvFile × List CsvFile) :=
  match file with
  | none => Except.ok (none, [])
  | some f =>
    if isCurrentFmt f then Except.ok (some f, [])
    else do
      let rows ← rowsOut stdFields (f.rows.map (migrateRow f.header today))
      Except.ok (some ⟨stdFields, rows⟩, [⟨stdFields, rows⟩])

/-! ### Merge and persist (`save_to_master`) -/

/-- The batch records whose identity is not yet a key of the store
(line 244: `[a for a in articles if a['id'] not in existing_articles]`).
Fetched records always carry an `id` field (line 155); `rgetD _ "id" ""`
reads it, with an empty-string default standing in for the `KeyError` an
id-less record would raise. -/
def newOnes (existing : Dict) (articles : List Record) : List Record :=
  articles.filter (fun a => !(alookup existing (rgetD a "id" "")).isSome)

/-- Lines 244-260 of `scrap.py`: filter the batch against the loaded
mapping; on an empty new set return count 0 with no write, otherwise write
the full file (existing records in mapping order, then the new records in
batch order) and return the new-record count.  The second component lists
the file writes performed. -/
def merge_and_persist (existing : Dict) (articles : List Record) :
    Except String (Nat × List CsvFile) :=
  if (newOnes existing articles).isEmpty then Except.ok (0, [])
  else do
    let rows ← rowsOut stdFields (existing.map Prod.snd ++ newOnes existing articles)
    Except.ok ((newOnes existing articles).length, [⟨stdFields, rows⟩])

/-- `save_to_master` from `scrap.py`: migrate, load, merge.  Returns the
new-record count, the resulting file state, and all writes performed. -/
def save_to_master (articles : List Record) (file : Option CsvFile)
    (today : String) : Except String (Nat × Option CsvFile × List CsvFile) := do
  let (f1, w1) ← migrate_old_format file today
  let existing := load_existing_articles f1
  let (n, w2) ← merge_and_persist existing articles
  let f2 := match w2 with
    | [] => f1
    | g :: _ => some g
  Except.ok (n, f2, w1 ++ w2)

/-- A sequence of runs, each merging one batch into the store. -/
def runBatches (batches : List (List Record)) (file : Option CsvFile)
    (today : String) : Except String (Option CsvFile) :=
  match batches with
  | [] => Except.ok file
  | b :: bs => do
    let (_, f1, _) ← save_to_master b file today
    runBatches bs f1 today

/-- A batch record as `get_articles` builds it (lines 155-162). -/
def mkArticle (title journal date abstract scraped : String) : Record :=
  [("id", generate_article_id title journal date), ("title", title),
   ("journal", journal), ("date", date), ("abstract", abstract),
   ("scraped_date", scraped)]

/-- Every character of the list is either non-whitespace or the plain
space. -/
def allSpace : List Char → Bool
  | [] => true
  | c :: t => (!(isWs c) || c = ' ') && allSpace t

/-- No two adjacent characters are both whitespace. -/
def noTwoWs : List Char → Bool
  | c1 :: c2 :: t => (!(isWs c1 && isWs c2)) && noTwoWs (c2 :: t)
  | _ => true

def headOk : List Char → Bool
  | [] => true
  | c :: _ => !(isWs c)

def lastOk : List Char → Bool
  | [] => true
  | [c] => !(isWs c)
  | _ :: c :: t => lastOk (c :: t)

/-- The character-list core of `clean_text` on a truthy string. -/
def cleanData (l : List Char) : List Char :=
  dropTrailWs (dropLeadWs (((collapseWs l).map
    (fun c => if c = '\n' then ' ' else c)).map
    (fun c => if c = '\r' then ' ' else c)))

/-- A persisted row's `id` column is the digest of its
(title, journal, date) columns. -/
def rowIdOk (r : List String) : Prop :=
  r.getD 0 "" =
    generate_article_id (r.getD 1 "") (r.getD 2 "") (r.getD 3 "")

/-- A batch record's `id` field is the digest of its own
(title, journal, date) fields, as `get_articles` guarantees. -/
def recIdOk (a : Record) : Prop :=
  rgetD a "id" "" =
    generate_article_id (rgetD a "title" "") (rgetD a "journal" "")
      (rgetD a "date" "")

/-- Well-formedness of a store state: standard header, 6-column rows,
pairwise-distinct identities, each derived from its own row's triple. -/
def StoreInv : Option CsvFile → Prop
  | none => True
  | some f => f.header = stdFields ∧ (∀ r ∈ f.rows, r.length = 6) ∧
      (f.rows.map (fun r => r.getD 0 "")).Nodup ∧ ∀ r ∈ f.rows, rowIdOk r

/-- A batch as the fetcher produces it: records carry only the standard
fields, have an `id` derived from their triple, and the batch holds at
most one record per identity. -/
def BatchOK (articles : List Record) : Prop :=
  (∀ a ∈ articles, a.all (fun q => stdFields.contains q.1) = true ∧
    rhasKey a "id" = true ∧ recIdOk a) ∧
  (articles.map (fun a => rgetD a "id" "")).Nodup

/-- At most one row per (title, journal, date) triple. -/
def NoDupTriples : Option CsvFile → Prop
  | none => True
  | some f =>
      (f.rows.map (fun r => (r.getD 1 "", r.getD 2 "", r.getD 3 ""))).Nodup

/-- The two-occurrence batch of the spec's example scenario: the same
(title, journal, date) twice, abstracts `"x"` then `"y"`. -/
def articleAX : Record := mkArticle "A" "J" "2024/01/01" "x" "2024-01-15"

def articleAY : Record := mkArticle "A" "J" "2024/01/01" "y" "2024-01-15"

/-- The master file `save_to_master` writes for that batch on an empty
store. -/
def dupBatchFile : CsvFile :=
  ⟨stdFields, [toRow stdFields articleAX, toRow stdFields articleAY]⟩


/-! ## Properties of `clean_text` -/

theorem allSpace_collapseWsAux (l : List Char) :
    ∀ b, allSpace (collapseWsAux b l) = true := by
  induction l with
  | nil => intro b; rfl
  | cons c t ih =>
    intro b
    cases hw : isWs c with
    | false => simp [collapseWsAux, hw, allSpace, ih false]
    | true =>
      cases b with
      | true => simpa [collapseWsAux, hw] using ih true
      | false => simp [collapseWsAux, hw, allSpace, ih true]

theorem headOk_collapseWsAux_true (l : List Char) :
    headOk (collapseWsAux true l) = true := by
  induction l with
  | nil => rfl
  | cons c t ih =>
    cases hw : isWs c with
    | false => simp [collapseWsAux, hw, headOk]
    | true => simpa [collapseWsAux, hw] using ih

theorem noTwoWs_collapseWsAux (l : List Char) :
    ∀ b, noTwoWs (collapseWsAux b l) = true := by
  induction l with
  | nil => intro b; rfl
  | cons c t ih =>
    intro b
    cases hw : isWs c with
    | false =>
      simp only [collapseWsAux, hw, Bool.false_eq_true, if_false]
      cases hX : collapseWsAux false t with
      | nil => rfl
      | cons d X =>
        have hn := ih false
        rw [hX] at hn
        simp [noTwoWs, hw, hn]
    | true =>
      cases b with
      | true => simpa [collapseWsAux, hw] using ih true
      | false =>
        simp only [collapseWsAux, hw, if_true]
        cases hX : collapseWsAux true t with
        | nil => rfl
        | cons d X =>
          have hh := headOk_collapseWsAux_true t
          rw [hX] at hh
          have hd : isWs d = false := by simpa [headOk] using hh
          have hn := ih true
          rw [hX] at hn
          simp [noTwoWs, hd, hn]

theorem collapseWsAux_fix (l : List Char) (hs : allSpace l = true)
    (hn : noTwoWs l = true) :
    collapseWsAux false l = l ∧
      (headOk l = true → collapseWsAux true l = l) := by
  induction l with
  | nil => exact ⟨rfl, fun _ => rfl⟩
  | cons c t ih =>
    have hs1 : (!(isWs c) || c = ' ') = true := by
      simp [allSpace] at hs; simpa using hs.1
    have hs' : allSpace t = true := by
      simp [allSpace] at hs; exact hs.2
    have hn' : noTwoWs t = true := by
      cases t with
      | nil => rfl
      | cons d t' => simp [noTwoWs] at hn ⊢; exact hn.2
    obtain ⟨ihf, iht⟩ := ih hs' hn'
    cases hw : isWs c with
    | false =>
      refine ⟨?_, fun _ => ?_⟩ <;> simp [collapseWsAux, hw, ihf]
    | true =>
      have hc : c = ' ' := by
        rw [hw] at hs1; simpa using hs1
      have hht : headOk t = true := by
        cases t with
        | nil => rfl
        | cons d t' =>
          simp [noTwoWs, hw] at hn
          simp [headOk, hn.1]
      refine ⟨?_, fun hh => ?_⟩
      · have hstep : collapseWsAux false (c :: t) = ' ' :: collapseWsAux true t := by
          simp [collapseWsAux, hw]
        rw [hstep, iht hht, hc]
      · rw [headOk, hw] at hh; simp at hh

theorem dropLeadWs_headOk (l : List Char) : headOk (dropLeadWs l) = true := by
  induction l with
  | nil => rfl
  | cons c t ih =>
    cases hw : isWs c with
    | false => simp [dropLeadWs, List.dropWhile_cons, hw, headOk]
    | true => simpa [dropLeadWs, List.dropWhile_cons, hw] using ih

theorem dropLeadWs_fix (l : List Char) (h : headOk l = true) :
    dropLeadWs l = l := by
  cases l with
  | nil => rfl
  | cons c t =>
    have : isWs c = false := by simpa [headOk] using h
    simp [dropLeadWs, List.dropWhile_cons, this]

theorem allSpace_dropLeadWs (l : List Char) (hs : allSpace l = true) :
    allSpace (dropLeadWs l) = true := by
  induction l with
  | nil => rfl
  | cons c t ih =>
    simp [allSpace] at hs
    cases hw : isWs c with
    | false =>
      have hout : dropLeadWs (c :: t) = c :: t := by
        simp [dropLeadWs, List.dropWhile_cons, hw]
      rw [hout]
      simp [allSpace, hw, hs.2]
    | true => simpa [dropLeadWs, List.dropWhile_cons, hw] using ih hs.2

theorem noTwoWs_dropLeadWs (l : List Char) (hn : noTwoWs l = true) :
    noTwoWs (dropLeadWs l) = true := by
  induction l with
  | nil => rfl
  | cons c t ih =>
    have hn' : noTwoWs t = true := by
      cases t with
      | nil => rfl
      | cons d t' => simp [noTwoWs] at hn ⊢; exact hn.2
    cases hw : isWs c with
    | false => simpa [dropLeadWs, List.dropWhile_cons, hw] using hn
    | true => simpa [dropLeadWs, List.dropWhile_cons, hw] using ih hn'

theorem dropTrailWs_cons (c : Char) (t : List Char) :
    dropTrailWs (c :: t) =
      if ((dropTrailWs t).isEmpty && isWs c) = true then []
      else c :: dropTrailWs t := rfl

theorem dropTrailWs_nil_or_head (l : List Char) :
    dropTrailWs l = [] ∨ (dropTrailWs l).head? = l.head? := by
  cases l with
  | nil => exact Or.inl rfl
  | cons c t =>
    rw [dropTrailWs_cons]
    by_cases h : ((dropTrailWs t).isEmpty && isWs c) = true
    · exact Or.inl (by rw [if_pos h])
    · exact Or.inr (by rw [if_neg h]; rfl)

theorem dropTrailWs_fix (l : List Char) (h : lastOk l = true) :
    dropTrailWs l = l := by
  induction l with
  | nil => rfl
  | cons c t ih =>
    cases t with
    | nil =>
      have hc : isWs c = false := by simpa [lastOk] using h
      rw [dropTrailWs_cons]
      simp [hc, dropTrailWs]
    | cons d t' =>
      have h' : lastOk (d :: t') = true := by simpa [lastOk] using h
      rw [dropTrailWs_cons, ih h']
      simp

theorem allSpace_dropTrailWs (l : List Char) (hs : allSpace l = true) :
    allSpace (dropTrailWs l) = true := by
  induction l with
  | nil => rfl
  | cons c t ih =>
    simp [allSpace] at hs
    rw [dropTrailWs_cons]
    by_cases h : ((dropTrailWs t).isEmpty && isWs c) = true
    · rw [if_pos h]; rfl
    · rw [if_neg h]
      have hrec := ih hs.2
      simp only [allSpace, hrec, Bool.and_true]
      rcases hs.1 with h1 | h1 <;> simp [h1]

theorem noTwoWs_dropTrailWs (l : List Char) (hn : noTwoWs l = true) :
    noTwoWs (dropTrailWs l) = true := by
  induction l with
  | nil => rfl
  | cons c t ih =>
    have hn' : noTwoWs t = true := by
      cases t with
      | nil => rfl
      | cons d t' => simp [noTwoWs] at hn ⊢; exact hn.2
    rw [dropTrailWs_cons]
    by_cases h : ((dropTrailWs t).isEmpty && isWs c) = true
    · rw [if_pos h]; rfl
    · rw [if_neg h]
      cases hX : dropTrailWs t with
      | nil => rfl
      | cons d X =>
        rcases dropTrailWs_nil_or_head t with h0 | h0
        · rw [h0] at hX; exact absurd hX (by simp)
        · rw [hX] at h0
          cases t with
          | nil => simp [dropTrailWs] at hX
          | cons e t' =>
            have hde : d = e := by simpa using h0
            subst hde
            simp only [noTwoWs] at hn
            have hrec := ih hn'
            rw [hX] at hrec
            simp only [noTwoWs, hrec, Bool.and_true]
            simp at hn ⊢
            exact hn.1

theorem headOk_dropTrailWs (l : List Char) (h : headOk l = true) :
    headOk (dropTrailWs l) = true := by
  rcases dropTrailWs_nil_or_head l with h0 | h0
  · simp [h0, headOk]
  · cases hX : dropTrailWs l with
    | nil => rfl
    | cons d X =>
      rw [hX] at h0
      cases l with
      | nil => simp at h0
      | cons c t =>
        have hdc : d = c := by simpa using h0
        subst hdc
        have : isWs d = false := by simpa [headOk] using h
        simpa [headOk] using this

theorem lastOk_dropTrailWs (l : List Char) : lastOk (dropTrailWs l) = true := by
  induction l with
  | nil => rfl
  | cons c t ih =>
    rw [dropTrailWs_cons]
    by_cases h : ((dropTrailWs t).isEmpty && isWs c) = true
    · rw [if_pos h]; rfl
    · rw [if_neg h]
      cases hX : dropTrailWs t with
      | nil =>
        have hc : isWs c = false := by
          rw [hX] at h; simpa using h
        simp [lastOk, hc]
      | cons d X =>
        rw [hX] at ih
        simpa [lastOk] using ih

theorem allSpace_mem (l : List Char) (hs : allSpace l = true) (c : Char)
    (hc : c ∈ l) (hw : isWs c = true) : c = ' ' := by
  induction l with
  | nil => simp at hc
  | cons d t ih =>
    simp [allSpace] at hs
    rcases List.mem_cons.mp hc with h | h
    · subst h
      rcases hs.1 with h1 | h1
      · rw [hw] at h1; simp at h1
      · exact h1
    · exact ih hs.2 h

theorem map_replace_fix (l : List Char) (ch : Char) (hwch : isWs ch = true)
    (hch : ch ≠ ' ') (hs : allSpace l = true) :
    l.map (fun c => if c = ch then ' ' else c) = l := by
  induction l with
  | nil => rfl
  | cons c t ih =>
    simp [allSpace] at hs
    have hc : c ≠ ch := by
      intro h
      subst h
      rcases hs.1 with h1 | h1
      · rw [hwch] at h1; simp at h1
      · exact hch h1
    simp only [List.map_cons, if_neg hc]
    rw [ih hs.2]

theorem clean_text_some_eq (s : String) (h : s.data.isEmpty = false) :
    clean_text (some s) = String.mk (cleanData s.data) := by
  simp [clean_text, h, cleanData]

theorem cleanData_props (l : List Char) :
    allSpace (cleanData l) = true ∧ noTwoWs (cleanData l) = true ∧
      headOk (cleanData l) = true ∧ lastOk (cleanData l) = true := by
  have hs0 : allSpace (collapseWs l) = true := allSpace_collapseWsAux l false
  have hn0 : noTwoWs (collapseWs l) = true := noTwoWs_collapseWsAux l false
  have e1 : (collapseWs l).map (fun c => if c = '\n' then ' ' else c) =
      collapseWs l := map_replace_fix _ '\n' (by decide) (by decide) hs0
  have e2 : (collapseWs l).map (fun c => if c = '\r' then ' ' else c) =
      collapseWs l := map_replace_fix _ '\r' (by decide) (by decide) hs0
  unfold cleanData
  rw [e1, e2]
  refine ⟨allSpace_dropTrailWs _ (allSpace_dropLeadWs _ hs0),
    noTwoWs_dropTrailWs _ (noTwoWs_dropLeadWs _ hn0),
    headOk_dropTrailWs _ (dropLeadWs_headOk _),
    lastOk_dropTrailWs _⟩

theorem cleanData_fix (l : List Char) (hs : allSpace l = true)
    (hn : noTwoWs l = true) (hh : headOk l = true) (ht : lastOk l = true) :
    cleanData l = l := by
  have e0 : collapseWs l = l := (collapseWsAux_fix l hs hn).1
  unfold cleanData
  rw [e0]
  have e1 : l.map (fun c => if c = '\n' then ' ' else c) = l :=
    map_replace_fix _ '\n' (by decide) (by decide) hs
  have e2 : l.map (fun c => if c = '\r' then ' ' else c) = l :=
    map_replace_fix _ '\r' (by decide) (by decide) hs
  rw [e1, e2, dropLeadWs_fix _ hh, dropTrailWs_fix _ ht]

/-- C10: `clean_text` maps `None` to `""`, is idempotent, and its output
contains no newline/carriage-return and no two consecutive whitespace
characters. -/
theorem clean_text_pure_idempotent :
    clean_text none = "" ∧
    (∀ t : Option String, clean_text (some (clean_text t)) = clean_text t) ∧
    (∀ t : Option String,
      '\n' ∉ (clean_text t).data ∧ '\r' ∉ (clean_text t).data) ∧
    (∀ t : Option String, noTwoWs (clean_text t).data = true) := by
  have hdata : ∀ t : Option String,
      clean_text t = "" ∨
        ∃ l, clean_text t = String.mk (cleanData l) := by
    intro t
    match t with
    | none => exact Or.inl rfl
    | some s =>
      cases h : s.data.isEmpty with
      | true => exact Or.inl (by simp [clean_text, h])
      | false => exact Or.inr ⟨s.data, clean_text_some_eq s h⟩
  have hclean_empty : clean_text (some "") = "" := by
    simp [clean_text]
  have key : ∀ t : Option String,
      allSpace (clean_text t).data = true ∧ noTwoWs (clean_text t).data = true ∧
        headOk (clean_text t).data = true ∧ lastOk (clean_text t).data = true := by
    intro t
    rcases hdata t with h | ⟨l, h⟩
    · rw [h]; exact ⟨rfl, rfl, rfl, rfl⟩
    · rw [h]; exact cleanData_props l
  refine ⟨rfl, ?_, ?_, ?_⟩
  · intro t
    rcases hdata t with h | ⟨l, h⟩
    · rw [h]; exact hclean_empty
    · rw [h]
      cases hE : (cleanData l).isEmpty with
      | true =>
        have : cleanData l = [] := by simpa using hE
        rw [this]
        exact hclean_empty
      | false =>
        have hk := key t
        rw [h] at hk
        rw [clean_text_some_eq _ (by simpa using hE)]
        have := cleanData_fix (cleanData l) hk.1 hk.2.1 hk.2.2.1 hk.2.2.2
        simp [this]
  · intro t
    have hk := (key t).1
    constructor
    · intro hmem
      have := allSpace_mem _ hk '\n' hmem (by decide)
      exact absurd this (by decide)
    · intro hmem
      have := allSpace_mem _ hk '\r' hmem (by decide)
      exact absurd this (by decide)
  · intro t
    exact (key t).2.1

/-! ## Properties of `generate_article_id` -/

theorem leBytes_length (n v : Nat) : (leBytes n v).length = n := by
  induction n generalizing v with
  | zero => rfl
  | succ m ih => simp [leBytes, ih]

theorem md5Digest_length (msg : List Nat) : (md5Digest msg).length = 16 := by
  unfold md5Digest
  simp [leBytes_length]

theorem hexDig_mem (n : Nat) : hexDig n ∈ hexChars := by
  unfold hexDig
  have h : n % 16 < hexChars.length := by
    rw [show hexChars.length = 16 from rfl]
    exact Nat.mod_lt n (by omega)
  rw [List.getD_eq_getElem _ _ h]
  exact List.getElem_mem h

theorem hexJoin_length (bs : List Nat) :
    ((bs.map byteHex).flatten).length = 2 * bs.length := by
  induction bs with
  | nil => rfl
  | cons b t ih =>
    simp [byteHex, ih]
    omega

theorem hexJoin_mem (bs : List Nat) (c : Char)
    (hc : c ∈ (bs.map byteHex).flatten) : c ∈ hexChars := by
  induction bs with
  | nil => simp at hc
  | cons b t ih =>
    simp only [List.map_cons, List.flatten_cons, List.mem_append] at hc
    rcases hc with h | h
    · simp [byteHex] at h
      rcases h with h | h <;> (subst h; exact hexDig_mem _)
    · exact ih h

/-- Sanity: the embedded MD5 agrees with `hashlib.md5` on the standard
test vectors. -/
theorem md5_test_vectors :
    md5Hex (strBytes "") = "d41d8cd98f00b204e9800998ecf8427e" ∧
    md5Hex (strBytes "abc") = "900150983cd24fb0d6963f7d28e17f72" := by
  constructor <;> decide

/-- C4: the identity is a total deterministic function of exactly
`(title, journal, date)`: it is the 128-bit (32 lowercase hex characters)
MD5 digest of the UTF-8 bytes of `title ++ "_" ++ journal ++ "_" ++ date`,
for every input including empty strings, whose all-empty digest is the
digest of `"__"`. -/
theorem generate_article_id_contract :
    (∀ title journal date : String,
      generate_article_id title journal date =
        md5Hex (strBytes (title ++ "_" ++ journal ++ "_" ++ date)) ∧
      (generate_article_id title journal date).length = 32 ∧
      ∀ c ∈ (generate_article_id title journal date).data, c ∈ hexChars) ∧
    generate_article_id "" "" "" = "18f05aeddc212b523b40818fa2b87b33" := by
  refine ⟨fun title journal date => ⟨rfl, ?_, ?_⟩, by decide⟩
  · show (String.mk ((md5Digest _).map byteHex).flatten).length = 32
    rw [String.length_mk, hexJoin_length, md5Digest_length]
  · intro c hc
    exact hexJoin_mem _ c hc

/-- C5 counterexample: two distinct `(title, journal, date)` triples whose
underscore-joined concatenations coincide receive the same identity. -/
theorem generate_article_id_not_injective :
    (("a_b", "c", "d") : String × String × String) ≠ ("a", "b_c", "d") ∧
    generate_article_id "a_b" "c" "d" = generate_article_id "a" "b_c" "d" := by
  exact ⟨by decide, rfl⟩

/-- C5 amended: the identity factors through the underscore-joined
concatenation `title ++ "_" ++ journal ++ "_" ++ date`; triples with equal
concatenations therefore share a digest, so distinctness of the three
inputs alone does not guarantee distinct identities. -/
theorem generate_article_id_factors (t1 j1 d1 t2 j2 d2 : String)
    (h : t1 ++ "_" ++ j1 ++ "_" ++ d1 = t2 ++ "_" ++ j2 ++ "_" ++ d2) :
    generate_article_id t1 j1 d1 = generate_article_id t2 j2 d2 := by
  unfold generate_article_id
  rw [h]

/-- Witness for `generate_article_id_factors` at the concrete collision. -/
theorem generate_article_id_factors_witness :
    generate_article_id "a_b" "c" "d" = generate_article_id "a" "b_c" "d" :=
  generate_article_id_factors "a_b" "c" "d" "a" "b_c" "d" (by rfl)

/-! ## Properties of `migrate_old_format` -/

theorem hasSub_cons (pat : List Char) (c : Char) (t : List Char)
    (h : hasSub pat t = true) : hasSub pat (c :: t) = true := by
  simp [hasSub, h]

theorem hasSub_append_right (pat a b : List Char) (h : hasSub pat b = true) :
    hasSub pat (a ++ b) = true := by
  induction a with
  | nil => simpa using h
  | cons c a' ih => exact hasSub_cons pat c (a' ++ b) ih

theorem hasSub_id_self (r : List Char) :
    hasSub ['i', 'd'] ('i' :: 'd' :: r) = true := by
  simp [hasSub, List.isPrefixOf]

theorem joinComma_cons (h : List Char) (t : List (List Char)) :
    ∃ r, joinComma (h :: t) = h ++ r := by
  cases t with
  | nil => exact ⟨[], by simp [joinComma]⟩
  | cons a b => exact ⟨',' :: joinComma (a :: b), rfl⟩

theorem hasSub_id_joinComma (hs : List String) (h : "id" ∈ hs) :
    hasSub ['i', 'd'] (joinComma (hs.map String.data)) = true := by
  induction hs with
  | nil => simp at h
  | cons s t ih =>
    rcases List.mem_cons.mp h with h1 | h1
    · obtain ⟨r, hr⟩ := joinComma_cons s.data (t.map String.data)
      rw [List.map_cons, hr, ← h1]
      exact hasSub_id_self r
    · cases t with
      | nil => simp at h1
      | cons a b =>
        have htail := ih h1
        rw [List.map_cons]
        show hasSub ['i', 'd']
          (s.data ++ ',' :: joinComma ((a :: b).map String.data)) = true
        exact hasSub_append_right _ _ _ (hasSub_cons _ _ _ htail)

theorem isCurrentFmt_of_id_mem (f : CsvFile) (h : "id" ∈ f.header) :
    isCurrentFmt f = true := by
  unfold isCurrentFmt headerLine
  exact hasSub_id_joinComma f.header h

/-- C7: the schema upgrade is a no-op (no file write, state unchanged) on
a missing store path and on any file whose header contains the `id`
field; repeated invocation before every load is therefore safe. -/
theorem migrate_old_format_idempotent_noop :
    (∀ today, migrate_old_format none today = Except.ok (none, [])) ∧
    (∀ (f : CsvFile) (today : String), "id" ∈ f.header →
      migrate_old_format (some f) today = Except.ok (some f, [])) := by
  refine ⟨fun _ => rfl, fun f today h => ?_⟩
  simp [migrate_old_format, isCurrentFmt_of_id_mem f h]

/-- Witness for `migrate_old_format_idempotent_noop` on a current-schema
file. -/
theorem migrate_old_format_idempotent_noop_witness :
    migrate_old_format (some ⟨stdFields, [["h1", "T", "J", "D", "x", "s"]]⟩)
        "2024-01-15" =
      Except.ok (some ⟨stdFields, [["h1", "T", "J", "D", "x", "s"]]⟩, []) :=
  migrate_old_format_idempotent_noop.2
    ⟨stdFields, [["h1", "T", "J", "D", "x", "s"]]⟩ "2024-01-15" (by decide)

/-! ## Migration of a legacy file -/

theorem row4_shape (r : List String) (h : r.length = 4) :
    ∃ t j d a, r = [t, j, d, a] := by
  rcases r with _ | ⟨t, _ | ⟨j, _ | ⟨d, _ | ⟨a, _ | r'⟩⟩⟩⟩ <;> simp at h
  exact ⟨t, j, d, a, rfl⟩

theorem migrateRow_legacy (t j d a today : String) :
    dictToRow stdFields
        (migrateRow ["title", "journal", "date", "abstract"] today [t, j, d, a]) =
      Except.ok (generate_article_id t j d :: [t, j, d, a] ++ [today]) := rfl

theorem migrate_legacy_rowsOut (rows : List (List String)) (today : String)
    (h : ∀ r ∈ rows, r.length = 4) :
    rowsOut stdFields
        (rows.map (migrateRow ["title", "journal", "date", "abstract"] today)) =
      Except.ok (rows.map (fun r =>
        generate_article_id (r.getD 0 "") (r.getD 1 "") (r.getD 2 "") ::
          r ++ [today])) := by
  induction rows with
  | nil => rfl
  | cons r t ih =>
    obtain ⟨x, y, z, w, rfl⟩ := row4_shape r (h r (by simp))
    have ht := ih (fun q hq => h q (by simp [hq]))
    unfold rowsOut at ht ⊢
    rw [List.map_cons, List.mapM_cons, migrateRow_legacy, ht]
    rfl

/-- C6 counterexample: a legacy file whose columns are not in the standard
relative order is rewritten with its fields reordered (the rewrite always
uses the fixed header `id, title, journal, date, abstract, scraped_date`),
so "preserved in its original order" fails. -/
theorem migrate_reorders_fields_cex :
    migrate_old_format
        (some ⟨["abstract", "title", "journal", "date"], [["x", "T", "J", "D"]]⟩)
        "2024-01-15" =
      Except.ok
        (some ⟨stdFields,
          [generate_article_id "T" "J" "D" :: ["T", "J", "D", "x", "2024-01-15"]]⟩,
         [⟨stdFields,
          [generate_article_id "T" "J" "D" :: ["T", "J", "D", "x", "2024-01-15"]]⟩]) ∧
    stdFields.filter (· ∈ ["abstract", "title", "journal", "date"]) ≠
      ["abstract", "title", "journal", "date"] :=
  ⟨rfl, by decide⟩

/-- C6 amended: when the legacy file's columns are exactly
`title, journal, date, abstract` (the legacy schema this store actually
evolved from), every original field value is preserved in its original
relative order — row `[t, j, d, a]` becomes `[id, t, j, d, a, today]` —
with only the derived `id` (front) and `scraped_date` (back) added. -/
theorem migrate_legacy_preserves_fields (rows : List (List String))
    (today : String) (h : ∀ r ∈ rows, r.length = 4) :
    migrate_old_format
        (some ⟨["title", "journal", "date", "abstract"], rows⟩) today =
      Except.ok
        (some ⟨stdFields, rows.map (fun r =>
          generate_article_id (r.getD 0 "") (r.getD 1 "") (r.getD 2 "") ::
            r ++ [today])⟩,
         [⟨stdFields, rows.map (fun r =>
          generate_article_id (r.getD 0 "") (r.getD 1 "") (r.getD 2 "") ::
            r ++ [today])⟩]) := by
  have hfmt : isCurrentFmt ⟨["title", "journal", "date", "abstract"], rows⟩ =
      false := rfl
  simp only [migrate_old_format, hfmt, Bool.false_eq_true, if_false]
  rw [migrate_legacy_rowsOut rows today h]
  rfl

/-- Witness for `migrate_legacy_preserves_fields` on a one-row legacy
file. -/
theorem migrate_legacy_preserves_fields_witness :
    migrate_old_format
        (some ⟨["title", "journal", "date", "abstract"], [["T", "J", "D", "x"]]⟩)
        "2024-01-15" =
      Except.ok
        (some ⟨stdFields,
          [generate_article_id "T" "J" "D" :: ["T", "J", "D", "x", "2024-01-15"]]⟩,
         [⟨stdFields,
          [generate_article_id "T" "J" "D" :: ["T", "J", "D", "x", "2024-01-15"]]⟩]) :=
  migrate_legacy_preserves_fields [["T", "J", "D", "x"]] "2024-01-15"
    (by decide)

/-! ## Association-list and Python-dict lemmas -/

theorem alookup_aset {α : Type} (m : List (String × α)) (k k' : String)
    (v : α) :
    alookup (aset m k v) k' = if k = k' then some v else alookup m k' := by
  induction m with
  | nil =>
    by_cases h : k = k' <;> simp [aset, alookup, h]
  | cons p t ih =>
    obtain ⟨k1, v1⟩ := p
    by_cases h1 : k1 = k
    · subst h1
      by_cases h2 : k1 = k' <;> simp [aset, alookup, h2]
    · by_cases h2 : k1 = k'
      · subst h2
        have hk : ¬ k = k1 := fun hh => h1 hh.symm
        simp [aset, alookup, h1, hk]
      · simp [aset, alookup, h1, h2, ih]

theorem keys_aset {α : Type} (m : List (String × α)) (k : String) (v : α) :
    (aset m k v).map Prod.fst =
      if (alookup m k).isSome then m.map Prod.fst
      else m.map Prod.fst ++ [k] := by
  induction m with
  | nil => simp [aset, alookup]
  | cons p t ih =>
    obtain ⟨k1, v1⟩ := p
    by_cases h1 : k1 = k
    · subst h1
      simp [aset, alookup]
    · have hk : ¬ k1 = k := h1
      by_cases hs : (alookup t k).isSome
      · simp [aset, alookup, hk, Ne.symm h1, hs] at ih ⊢
        rw [ih]
      · simp [aset, alookup, hk, Ne.symm h1, hs] at ih ⊢
        rw [ih]

theorem alookup_isSome_iff_mem {α : Type} (m : List (String × α))
    (k : String) :
    (alookup m k).isSome = true ↔ k ∈ m.map Prod.fst := by
  induction m with
  | nil => simp [alookup]
  | cons p t ih =>
    obtain ⟨k1, v1⟩ := p
    by_cases h1 : k1 = k
    · subst h1; simp [alookup]
    · simp [alookup, h1, ih, Ne.symm h1]

theorem nodup_keys_aset {α : Type} (m : List (String × α)) (k : String)
    (v : α) (hm : (m.map Prod.fst).Nodup) :
    ((aset m k v).map Prod.fst).Nodup := by
  rw [keys_aset]
  by_cases hs : (alookup m k).isSome
  · simpa [hs] using hm
  · have hk : k ∉ m.map Prod.fst := fun hmem =>
      hs ((alookup_isSome_iff_mem m k).mpr hmem)
    simp only [hs, Bool.false_eq_true, if_false]
    refine List.Nodup.append hm (List.nodup_singleton k) ?_
    intro a ha hb
    rw [List.mem_singleton] at hb
    exact hk (hb ▸ ha)

theorem nodup_keys_foldl_aset {α : Type} (l : List (String × α))
    (m : List (String × α)) (hm : (m.map Prod.fst).Nodup) :
    ((l.foldl (fun m p => aset m p.1 p.2) m).map Prod.fst).Nodup := by
  induction l generalizing m with
  | nil => exact hm
  | cons p t ih => exact ih _ (nodup_keys_aset m p.1 p.2 hm)

theorem mem_aset {α : Type} (m : List (String × α)) (k : String) (v : α)
    (p : String × α) (hp : p ∈ aset m k v) : p ∈ m ∨ p = (k, v) := by
  induction m with
  | nil => simpa [aset] using hp
  | cons q t ih =>
    obtain ⟨k1, v1⟩ := q
    by_cases h1 : k1 = k
    · subst h1
      simp [aset] at hp
      rcases hp with h | h
      · exact Or.inr (by simp [h])
      · exact Or.inl (by simp [h])
    · simp [aset, h1] at hp
      rcases hp with h | h
      · exact Or.inl (by simp [h])
      · rcases ih h with h2 | h2
        · exact Or.inl (by simp [h2])
        · exact Or.inr h2

theorem mem_foldl_aset {α : Type} (l : List (String × α))
    (m : List (String × α)) (p : String × α)
    (hp : p ∈ l.foldl (fun m q => aset m q.1 q.2) m) : p ∈ m ∨ p ∈ l := by
  induction l generalizing m with
  | nil => exact Or.inl hp
  | cons q t ih =>
    rcases ih _ hp with h | h
    · rcases mem_aset m q.1 q.2 p h with h2 | h2
      · exact Or.inl h2
      · exact Or.inr (by simp [h2])
    · exact Or.inr (by simp [h])

theorem alookup_foldl_aset {α : Type} (l : List (String × α))
    (m : List (String × α)) (k : String) :
    alookup (l.foldl (fun m p => aset m p.1 p.2) m) k =
      match (l.filter (fun p => p.1 = k)).getLast? with
      | some p => some p.2
      | none => alookup m k := by
  induction l generalizing m with
  | nil => rfl
  | cons p t ih =>
    show alookup (t.foldl (fun m p => aset m p.1 p.2) (aset m p.1 p.2)) k = _
    rw [ih]
    by_cases hp : p.1 = k
    · cases hf : t.filter (fun q => decide (q.1 = k)) with
      | nil =>
        rw [List.filter_cons_of_pos (by simpa using hp), hf]
        simp only [List.getLast?_nil, List.getLast?_singleton]
        rw [alookup_aset]
        simp [hp]
      | cons q qs =>
        rw [List.filter_cons_of_pos (by simpa using hp), hf,
          List.getLast?_cons_cons]
        cases hql : (q :: qs).getLast? with
        | none => exact absurd (List.getLast?_eq_none_iff.mp hql) (by simp)
        | some z => rfl
    · cases hf : t.filter (fun q => decide (q.1 = k)) with
      | nil =>
        rw [List.filter_cons_of_neg (by simpa using hp), hf]
        simp only [List.getLast?_nil]
        rw [alookup_aset]
        simp [hp]
      | cons q qs =>
        rw [List.filter_cons_of_neg (by simpa using hp), hf]
        cases hql : (q :: qs).getLast? with
        | none => exact absurd (List.getLast?_eq_none_iff.mp hql) (by simp)
        | some z => rfl

/-! ## Properties of `load_existing_articles` -/

theorem withId_has_id (r : Record) : rhasKey (withId r) "id" = true := by
  unfold withId
  cases h : rhasKey r "id" with
  | true => simpa using h
  | false =>
    rw [if_neg (by simp)]
    unfold rhasKey
    rw [alookup_aset]
    simp

theorem withId_fills_id (r : Record) (h : rhasKey r "id" = false) :
    rgetD (withId r) "id" "" =
      generate_article_id (rgetD r "title" "") (rgetD r "journal" "")
        (rgetD r "date" "") := by
  unfold withId
  rw [if_neg (by simp [h])]
  unfold rgetD
  rw [alookup_aset]
  simp

/-- C8: the loader returns an empty mapping for a missing store path; its
keys are unique by construction; the record stored under a key is the one
coming from the last file row bearing that identity (last row wins); and
every row lacking an `id` field is assigned one, computed from its
`(title, journal, date)` fields, so loading never fails for missing
identities. -/
theorem load_existing_articles_contract :
    load_existing_articles none = [] ∧
    (∀ f : CsvFile, ((load_existing_articles (some f)).map Prod.fst).Nodup) ∧
    (∀ (f : CsvFile) (k : String),
      alookup (load_existing_articles (some f)) k =
        ((loadPairs f).filter (fun p => p.1 = k)).getLast?.map Prod.snd) ∧
    (∀ r : Record, rhasKey (withId r) "id" = true) ∧
    (∀ r : Record, rhasKey r "id" = false →
      rgetD (withId r) "id" "" =
        generate_article_id (rgetD r "title" "") (rgetD r "journal" "")
          (rgetD r "date" "")) := by
  refine ⟨rfl, ?_, ?_, withId_has_id, withId_fills_id⟩
  · intro f
    exact nodup_keys_foldl_aset (loadPairs f) [] (by simp)
  · intro f k
    show alookup ((loadPairs f).foldl (fun m p => aset m p.1 p.2) []) k = _
    rw [alookup_foldl_aset]
    cases hf : ((loadPairs f).filter (fun p => p.1 = k)).getLast? <;>
      simp [alookup]

/-- Witness for `load_existing_articles_contract`: a record with no `id`
field receives the derived identity. -/
theorem load_existing_articles_contract_witness :
    rgetD (withId [("title", "T"), ("journal", "J"), ("date", "D")]) "id" "" =
      generate_article_id "T" "J" "D" :=
  load_existing_articles_contract.2.2.2.2
    [("title", "T"), ("journal", "J"), ("date", "D")] (by decide)

/-! ## Properties of `merge_and_persist` -/

theorem rowsOut_ok (fns : List String) (rs : List Record)
    (h : ∀ r ∈ rs, r.all (fun p => fns.contains p.1) = true) :
    rowsOut fns rs = Except.ok (rs.map (toRow fns)) := by
  induction rs with
  | nil => rfl
  | cons r t ih =>
    have h1 : dictToRow fns r = Except.ok (toRow fns r) := by
      unfold dictToRow toRow
      rw [if_pos (h r (by simp))]
    have ht := ih (fun x hx => h x (by simp [hx]))
    unfold rowsOut at ht ⊢
    rw [List.mapM_cons, h1, ht]
    rfl

theorem merge_noop (existing : Dict) (articles : List Record)
    (h : newOnes existing articles = []) :
    merge_and_persist existing articles = Except.ok (0, []) := by
  unfold merge_and_persist
  rw [h]
  rfl

theorem merge_ok_of_fits (existing : Dict) (articles : List Record)
    (hne : newOnes existing articles ≠ [])
    (hfit : ∀ r ∈ existing.map Prod.snd ++ newOnes existing articles,
      r.all (fun q => stdFields.contains q.1) = true) :
    merge_and_persist existing articles =
      Except.ok ((newOnes existing articles).length,
        [⟨stdFields, (existing.map Prod.snd ++ newOnes existing articles).map
          (toRow stdFields)⟩]) := by
  have hni : (newOnes existing articles).isEmpty = false := by
    cases hq : (newOnes existing articles).isEmpty with
    | true => exact absurd (List.isEmpty_iff.mp hq) hne
    | false => rfl
  unfold merge_and_persist
  rw [hni]
  simp only [Bool.false_eq_true, if_false]
  rw [rowsOut_ok _ _ hfit]
  rfl

/-- C9: merge performs no write and reports zero when every incoming
identity is already present (in particular on an empty batch), and
otherwise performs exactly one full-file rewrite: header plus all
existing records in mapping order followed by the new records in batch
order. -/
theorem merge_and_persist_write_discipline (existing : Dict)
    (articles : List Record) :
    (newOnes existing articles = [] →
      merge_and_persist existing articles = Except.ok (0, [])) ∧
    (newOnes existing articles ≠ [] →
      (∀ p ∈ existing, p.2.all (fun q => stdFields.contains q.1) = true) →
      (∀ a ∈ articles, a.all (fun q => stdFields.contains q.1) = true) →
      merge_and_persist existing articles =
        Except.ok ((newOnes existing articles).length,
          [⟨stdFields, (existing.map Prod.snd ++ newOnes existing articles).map
            (toRow stdFields)⟩])) := by
  constructor
  · exact merge_noop existing articles
  · intro hne hex hart
    have hfit : ∀ r ∈ existing.map Prod.snd ++ newOnes existing articles,
        r.all (fun q => stdFields.contains q.1) = true := by
      intro r hr
      rcases List.mem_append.mp hr with h | h
      · obtain ⟨p, hp, hpr⟩ := List.mem_map.mp h
        exact hpr ▸ hex p hp
      · exact hart r (List.mem_of_mem_filter h)
    exact merge_ok_of_fits existing articles hne hfit

/-- Witness for `merge_and_persist_write_discipline`: a store with one
record and a batch with one new record produce exactly one rewrite. -/
theorem merge_and_persist_write_discipline_witness :
    merge_and_persist [] [[("id", "h1"), ("title", "A"), ("journal", "J"),
        ("date", "D"), ("abstract", "x"), ("scraped_date", "s")]] =
      Except.ok (1, [⟨stdFields, [["h1", "A", "J", "D", "x", "s"]]⟩]) :=
  (merge_and_persist_write_discipline [] [[("id", "h1"), ("title", "A"),
      ("journal", "J"), ("date", "D"), ("abstract", "x"),
      ("scraped_date", "s")]]).2 (by decide) (by decide) (by decide)

/-! ## The full `save_to_master` pipeline -/

theorem isCurrentFmt_std (rows : List (List String)) :
    isCurrentFmt ⟨stdFields, rows⟩ = true := rfl

theorem rowsOut_ok_elim (fns : List String) (rs : List Record)
    (out : List (List String)) (h : rowsOut fns rs = Except.ok out) :
    out = rs.map (toRow fns) := by
  induction rs generalizing out with
  | nil =>
    simp only [rowsOut, List.mapM_nil] at h
    cases h
    rfl
  | cons r t ih =>
    unfold rowsOut at h ih
    rw [List.mapM_cons] at h
    cases hd : dictToRow fns r with
    | error e => rw [hd] at h; exact absurd h (by simp [Bind.bind, Except.bind])
    | ok b =>
      rw [hd] at h
      cases ht : t.mapM (dictToRow fns) with
      | error e =>
        rw [ht] at h
        exact absurd h (by simp [Bind.bind, Except.bind])
      | ok bs =>
        rw [ht] at h
        have hout : out = b :: bs := by
          simpa [Bind.bind, Except.bind, pure, Except.pure] using h.symm
        have hb : b = toRow fns r := by
          unfold dictToRow at hd
          by_cases hc : r.all (fun p => fns.contains p.1) = true
          · rw [if_pos hc] at hd
            cases hd
            rfl
          · rw [if_neg hc] at hd
            cases hd
        rw [hout, hb, ih bs ht]
        rfl

theorem migrate_stable (file f1 : Option CsvFile) (today today' : String)
    (w1 : List CsvFile)
    (h : migrate_old_format file today = Except.ok (f1, w1)) :
    migrate_old_format f1 today' = Except.ok (f1, []) := by
  cases file with
  | none =>
    simp only [migrate_old_format] at h
    cases h
    rfl
  | some f =>
    by_cases hc : isCurrentFmt f = true
    · simp only [migrate_old_format, hc, if_true] at h
      cases h
      simp [migrate_old_format, hc]
    · have hc' : isCurrentFmt f = false := by
        cases hv : isCurrentFmt f
        · rfl
        · exact absurd hv hc
      simp only [migrate_old_format, hc', Bool.false_eq_true, if_false] at h
      cases hro : rowsOut stdFields (f.rows.map (migrateRow f.header today)) with
      | error e =>
        rw [hro] at h
        exact absurd h (by simp [Bind.bind, Except.bind])
      | ok rows =>
        rw [hro] at h
        have h1 : f1 = some ⟨stdFields, rows⟩ := by
          simpa [Bind.bind, Except.bind, pure, Except.pure] using
            congrArg (fun x => match x with
              | Except.ok p => p.1
              | Except.error _ => none) h.symm
        rw [h1]
        simp [migrate_old_format, isCurrentFmt_std]

theorem save_eq_of_merge_noop (articles : List Record) (file : Option CsvFile)
    (today : String) (f1m : Option CsvFile) (w1 : List CsvFile)
    (hmig : migrate_old_format file today = Except.ok (f1m, w1))
    (hN : newOnes (load_existing_articles f1m) articles = []) :
    save_to_master articles file today = Except.ok (0, f1m, w1) := by
  unfold save_to_master
  rw [hmig]
  show (merge_and_persist (load_existing_articles f1m) articles).bind _ =
    Except.ok (0, f1m, w1)
  rw [merge_noop _ _ hN]
  show Except.ok (0, f1m, w1 ++ []) = Except.ok (0, f1m, w1)
  rw [List.append_nil]

theorem save_eq_of_merge_ok (articles : List Record) (file : Option CsvFile)
    (today : String) (f1m : Option CsvFile) (w1 : List CsvFile) (n : Nat)
    (g : CsvFile)
    (hmig : migrate_old_format file today = Except.ok (f1m, w1))
    (hM : merge_and_persist (load_existing_articles f1m) articles =
      Except.ok (n, [g])) :
    save_to_master articles file today = Except.ok (n, some g, w1 ++ [g]) := by
  unfold save_to_master
  rw [hmig]
  show (merge_and_persist (load_existing_articles f1m) articles).bind _ =
    Except.ok (n, some g, w1 ++ [g])
  rw [hM]
  rfl

theorem save_eq_of_merge_error (articles : List Record) (file : Option CsvFile)
    (today : String) (f1m : Option CsvFile) (w1 : List CsvFile) (e : String)
    (hmig : migrate_old_format file today = Except.ok (f1m, w1))
    (hM : merge_and_persist (load_existing_articles f1m) articles =
      Except.error e) :
    save_to_master articles file today = Except.error e := by
  unfold save_to_master
  rw [hmig]
  show (merge_and_persist (load_existing_articles f1m) articles).bind _ =
    Except.error e
  rw [hM]
  rfl

/-! ### Loading a file the merge step has just written -/

theorem loadPairs_written (rs : List Record) :
    loadPairs ⟨stdFields, rs.map (toRow stdFields)⟩ =
      rs.map (fun r =>
        (rgetD r "id" "", recordOfRow stdFields (toRow stdFields r))) := by
  unfold loadPairs
  have h : (CsvFile.mk stdFields (rs.map (toRow stdFields))).rows =
      rs.map (toRow stdFields) := rfl
  rw [h, List.map_map]
  exact List.map_congr_left (fun r _ => rfl)

theorem keys_loadPairs_written (rs : List Record) :
    (loadPairs ⟨stdFields, rs.map (toRow stdFields)⟩).map Prod.fst =
      rs.map (fun r => rgetD r "id" "") := by
  rw [loadPairs_written, List.map_map]
  exact List.map_congr_left (fun r _ => rfl)

theorem load_key_eq (f : CsvFile) (p : String × Record)
    (hp : p ∈ load_existing_articles (some f)) :
    rgetD p.2 "id" "" = p.1 := by
  have hp' : p ∈ (loadPairs f).foldl (fun m q => aset m q.1 q.2) [] := hp
  rcases mem_foldl_aset _ _ _ hp' with h | h
  · simp at h
  · unfold loadPairs at h
    obtain ⟨row, _, heq⟩ := List.mem_map.mp h
    rw [← heq]

theorem alookup_load_isSome (f : CsvFile) (k : String) :
    (alookup (load_existing_articles (some f)) k).isSome = true ↔
      k ∈ (loadPairs f).map Prod.fst := by
  have h0 : load_existing_articles (some f) =
      (loadPairs f).foldl (fun m q => aset m q.1 q.2) [] := rfl
  rw [h0, alookup_foldl_aset]
  cases hf : ((loadPairs f).filter (fun p => p.1 = k)).getLast? with
  | none =>
    have hnil := List.getLast?_eq_none_iff.mp hf
    constructor
    · intro hcontra
      simp [alookup] at hcontra
    · intro hk
      exfalso
      obtain ⟨p, hp, hpk⟩ := List.mem_map.mp hk
      have := List.filter_eq_nil_iff.mp hnil p hp
      simp [hpk] at this
  | some q =>
    constructor
    · intro _
      obtain ⟨l', hl⟩ := List.getLast?_eq_some_iff.mp hf
      have hq : q ∈ (loadPairs f).filter (fun p => decide (p.1 = k)) := by
        rw [hl]; simp
      have hqm : q ∈ loadPairs f := List.mem_of_mem_filter hq
      have hqk : q.1 = k := by simpa using List.of_mem_filter hq
      exact List.mem_map.mpr ⟨q, hqm, hqk⟩
    · intro _; rfl

/-- Every identity of a batch article is a key of the mapping loaded from
the file the merge step has just written. -/
theorem mem_keys_after_write (f1m : Option CsvFile) (articles : List Record)
    (a : Record) (ha : a ∈ articles) :
    rgetD a "id" "" ∈
      (loadPairs ⟨stdFields,
        ((load_existing_articles f1m).map Prod.snd ++
          newOnes (load_existing_articles f1m) articles).map
            (toRow stdFields)⟩).map Prod.fst := by
  rw [keys_loadPairs_written, List.map_append, List.mem_append]
  by_cases hnew : (alookup (load_existing_articles f1m) (rgetD a "id" "")).isSome = true
  · left
    cases f1m with
    | none => simp [load_existing_articles, alookup] at hnew
    | some f =>
      obtain ⟨p, hp, hpk⟩ :=
        List.mem_map.mp ((alookup_isSome_iff_mem _ _).mp hnew)
      have hkey := load_key_eq f p hp
      rw [List.map_map]
      refine List.mem_map.mpr ⟨p, hp, ?_⟩
      show rgetD p.2 "id" "" = rgetD a "id" ""
      rw [hkey, hpk]
  · right
    have hmem : a ∈ newOnes (load_existing_articles f1m) articles := by
      unfold newOnes
      refine List.mem_filter.mpr ⟨ha, ?_⟩
      simp only [Bool.not_eq_true'] at hnew ⊢
      simp [hnew]
    exact List.mem_map.mpr ⟨a, hmem, rfl⟩

/-- C3: merging the same batch twice is idempotent — whenever the first
`save_to_master` invocation succeeds, running it again with the same batch
on the resulting store returns a new-record count of 0, performs no write,
and leaves the store state unchanged. -/
theorem save_to_master_idempotent (articles : List Record)
    (file : Option CsvFile) (today : String) (n : Nat)
    (f1 : Option CsvFile) (w : List CsvFile)
    (hrun : save_to_master articles file today = Except.ok (n, f1, w)) :
    save_to_master articles f1 today = Except.ok (0, f1, []) := by
  cases hmig : migrate_old_format file today with
  | error e =>
    unfold save_to_master at hrun
    rw [hmig] at hrun
    exact absurd hrun (by simp [Bind.bind, Except.bind])
  | ok pw =>
    obtain ⟨f1m, w1⟩ := pw
    have hstable := migrate_stable file f1m today today w1 hmig
    by_cases hN : newOnes (load_existing_articles f1m) articles = []
    · have h1 := save_eq_of_merge_noop articles file today f1m w1 hmig hN
      rw [h1] at hrun
      obtain ⟨hn, hf, hw⟩ : 0 = n ∧ f1m = f1 ∧ w1 = w := by
        simpa using hrun
      rw [← hf]
      exact save_eq_of_merge_noop articles f1m today f1m []
        (by simpa using hstable) hN
    · have hni : (newOnes (load_existing_articles f1m) articles).isEmpty =
          false := by
        cases hq : (newOnes (load_existing_articles f1m) articles).isEmpty with
        | true => exact absurd (List.isEmpty_iff.mp hq) hN
        | false => rfl
      cases hro : rowsOut stdFields
          ((load_existing_articles f1m).map Prod.snd ++
            newOnes (load_existing_articles f1m) articles) with
      | error e =>
        have hM : merge_and_persist (load_existing_articles f1m) articles =
            Except.error e := by
          unfold merge_and_persist
          rw [hni]
          simp only [Bool.false_eq_true, if_false]
          rw [hro]
          rfl
        rw [save_eq_of_merge_error articles file today f1m w1 e hmig hM]
          at hrun
        exact absurd hrun (by simp)
      | ok rows =>
        have hrows := rowsOut_ok_elim _ _ _ hro
        have hM : merge_and_persist (load_existing_articles f1m) articles =
            Except.ok ((newOnes (load_existing_articles f1m) articles).length,
              [⟨stdFields, rows⟩]) := by
          unfold merge_and_persist
          rw [hni]
          simp only [Bool.false_eq_true, if_false]
          rw [hro]
          rfl
        rw [save_eq_of_merge_ok articles file today f1m w1 _ _ hmig hM]
          at hrun
        obtain ⟨hn, hf, hw⟩ :
            (newOnes (load_existing_articles f1m) articles).length = n ∧
              some ⟨stdFields, rows⟩ = f1 ∧ w1 ++ [⟨stdFields, rows⟩] = w := by
          simpa using hrun
        rw [← hf]
        have hmig2 : migrate_old_format (some ⟨stdFields, rows⟩) today =
            Except.ok (some ⟨stdFields, rows⟩, []) := by
          simp [migrate_old_format, isCurrentFmt_std]
        have hN2 : newOnes
            (load_existing_articles (some (⟨stdFields, rows⟩ : CsvFile)))
            articles = [] := by
          unfold newOnes
          rw [List.filter_eq_nil_iff]
          intro a ha
          have hkey : (alookup
              (load_existing_articles (some (⟨stdFields, rows⟩ : CsvFile)))
              (rgetD a "id" "")).isSome = true := by
            rw [alookup_load_isSome]
            rw [hrows]
            exact mem_keys_after_write f1m articles a ha
          simp [hkey]
        exact save_eq_of_merge_noop articles (some ⟨stdFields, rows⟩) today
          (some ⟨stdFields, rows⟩) [] hmig2 hN2

/-- Witness for `save_to_master_idempotent`: a second merge of a one-record
batch into the store just produced by the first merge is a no-op. -/
theorem save_to_master_idempotent_witness :
    save_to_master [[("id", "h1"), ("title", "A"), ("journal", "J"),
        ("date", "D"), ("abstract", "x"), ("scraped_date", "s")]]
      (some ⟨stdFields, [["h1", "A", "J", "D", "x", "s"]]⟩) "2024-01-15" =
      Except.ok (0, some ⟨stdFields, [["h1", "A", "J", "D", "x", "s"]]⟩, []) :=
  save_to_master_idempotent
    [[("id", "h1"), ("title", "A"), ("journal", "J"), ("date", "D"),
      ("abstract", "x"), ("scraped_date", "s")]]
    none "2024-01-15" 1
    (some ⟨stdFields, [["h1", "A", "J", "D", "x", "s"]]⟩)
    [⟨stdFields, [["h1", "A", "J", "D", "x", "s"]]⟩] (by rfl)

/-! ## The no-duplication invariant -/

theorem row6_shape (r : List String) (h : r.length = 6) :
    ∃ v0 v1 v2 v3 v4 v5, r = [v0, v1, v2, v3, v4, v5] := by
  rcases r with _ | ⟨v0, _ | ⟨v1, _ | ⟨v2, _ | ⟨v3, _ | ⟨v4, _ | ⟨v5, _ | r'⟩⟩⟩⟩⟩⟩ <;>
    simp at h
  exact ⟨v0, v1, v2, v3, v4, v5, rfl⟩

theorem rowIdOk_toRow (r : Record) (h : recIdOk r) :
    rowIdOk (toRow stdFields r) := h

theorem load_wf_facts (f : CsvFile) (hd : f.header = stdFields)
    (hlen : ∀ r ∈ f.rows, r.length = 6) (hIdOk : ∀ r ∈ f.rows, rowIdOk r)
    (p : String × Record) (hp : p ∈ load_existing_articles (some f)) :
    p.2.all (fun q => stdFields.contains q.1) = true ∧ recIdOk p.2 := by
  have hp' : p ∈ (loadPairs f).foldl (fun m q => aset m q.1 q.2) [] := hp
  rcases mem_foldl_aset _ _ _ hp' with h | h
  · simp at h
  · unfold loadPairs at h
    obtain ⟨row, hrow, heq⟩ := List.mem_map.mp h
    obtain ⟨v0, v1, v2, v3, v4, v5, rfl⟩ := row6_shape row (hlen _ hrow)
    rw [hd] at heq
    have hIr := hIdOk _ hrow
    rw [← heq]
    refine ⟨rfl, ?_⟩
    exact hIr

theorem migrate_storeInv_noop (file : Option CsvFile) (today : String)
    (hI : StoreInv file) :
    migrate_old_format file today = Except.ok (file, []) := by
  cases file with
  | none => rfl
  | some f =>
    have hc : isCurrentFmt f = true :=
      isCurrentFmt_of_id_mem f (hI.1 ▸ (by decide : "id" ∈ stdFields))
    simp [migrate_old_format, hc]

theorem save_step_inv (articles : List Record) (file : Option CsvFile)
    (today : String) (hI : StoreInv file) (hB : BatchOK articles) :
    ∃ n f' w, save_to_master articles file today = Except.ok (n, f', w) ∧
      StoreInv f' := by
  have hmig := migrate_storeInv_noop file today hI
  by_cases hN : newOnes (load_existing_articles file) articles = []
  · exact ⟨0, file, [], save_eq_of_merge_noop _ _ _ _ _ hmig hN, hI⟩
  · have hexfacts : ∀ p ∈ load_existing_articles file,
        p.2.all (fun q => stdFields.contains q.1) = true ∧ recIdOk p.2 := by
      cases file with
      | none => intro p hp; simp [load_existing_articles] at hp
      | some f => exact fun p hp =>
          load_wf_facts f hI.1 hI.2.1 hI.2.2.2 p hp
    have hfit : ∀ r ∈ (load_existing_articles file).map Prod.snd ++
        newOnes (load_existing_articles file) articles,
        r.all (fun q => stdFields.contains q.1) = true := by
      intro r hr
      rcases List.mem_append.mp hr with h | h
      · obtain ⟨p, hp, hpr⟩ := List.mem_map.mp h
        exact hpr ▸ (hexfacts p hp).1
      · exact (hB.1 r (List.mem_of_mem_filter h)).1
    have hM := merge_ok_of_fits _ _ hN hfit
    refine ⟨_, _, _, save_eq_of_merge_ok _ _ _ _ _ _ _ hmig hM, ?_⟩
    refine ⟨rfl, ?_, ?_, ?_⟩
    · intro r hr
      obtain ⟨x, _, rfl⟩ := List.mem_map.mp hr
      rfl
    · show ((((load_existing_articles file).map Prod.snd ++
        newOnes (load_existing_articles file) articles).map
          (toRow stdFields)).map (fun r => r.getD 0 "")).Nodup
      rw [List.map_map]
      have hpt : (((load_existing_articles file).map Prod.snd ++
          newOnes (load_existing_articles file) articles).map
            ((fun r => r.getD 0 "") ∘ toRow stdFields)) =
          ((load_existing_articles file).map Prod.snd ++
          newOnes (load_existing_articles file) articles).map
            (fun r => rgetD r "id" "") :=
        List.map_congr_left (fun r _ => rfl)
      rw [hpt, List.map_append]
      have hk1 : ((load_existing_articles file).map Prod.snd).map
          (fun r => rgetD r "id" "") =
          (load_existing_articles file).map Prod.fst := by
        rw [List.map_map]
        refine List.map_congr_left (fun p hp => ?_)
        show rgetD p.2 "id" "" = p.1
        cases file with
        | none => simp [load_existing_articles] at hp
        | some f => exact load_key_eq f p hp
      rw [hk1]
      have hn1 : ((load_existing_articles file).map Prod.fst).Nodup := by
        cases file with
        | none => simp [load_existing_articles]
        | some f => exact nodup_keys_foldl_aset (loadPairs f) [] (by simp)
      have hn2 : ((newOnes (load_existing_articles file) articles).map
          (fun a => rgetD a "id" "")).Nodup :=
        hB.2.sublist ((List.filter_sublist articles).map _)
      refine List.Nodup.append hn1 hn2 ?_
      intro k hk1m hk2m
      obtain ⟨a, ha, hak⟩ := List.mem_map.mp hk2m
      have hpred := List.of_mem_filter ha
      rw [hak] at hpred
      have : (alookup (load_existing_articles file) k).isSome = true :=
        (alookup_isSome_iff_mem _ _).mpr hk1m
      rw [this] at hpred
      simp at hpred
    · intro r hr
      obtain ⟨x, hx, rfl⟩ := List.mem_map.mp hr
      apply rowIdOk_toRow
      rcases List.mem_append.mp hx with h | h
      · obtain ⟨p, hp, hpr⟩ := List.mem_map.mp h
        exact hpr ▸ (hexfacts p hp).2
      · exact (hB.1 x (List.mem_of_mem_filter h)).2.2

theorem runBatches_inv (batches : List (List Record)) (file : Option CsvFile)
    (today : String) (hBs : ∀ b ∈ batches, BatchOK b) (hI : StoreInv file) :
    ∃ f', runBatches batches file today = Except.ok f' ∧ StoreInv f' := by
  induction batches generalizing file with
  | nil => exact ⟨file, rfl, hI⟩
  | cons b bs ih =>
    obtain ⟨n, f1, w, hstep, hI1⟩ :=
      save_step_inv b file today hI (hBs b (by simp))
    obtain ⟨f', hrun, hI'⟩ := ih f1 (fun x hx => hBs x (by simp [hx])) hI1
    refine ⟨f', ?_, hI'⟩
    unfold runBatches
    rw [hstep]
    exact hrun

theorem storeInv_noDupTriples (f : Option CsvFile) (h : StoreInv f) :
    NoDupTriples f := by
  cases f with
  | none => trivial
  | some f =>
    have hids := h.2.2.1
    have heq : f.rows.map (fun r => r.getD 0 "") =
        (f.rows.map (fun r => (r.getD 1 "", r.getD 2 "", r.getD 3 ""))).map
          (fun t => generate_article_id t.1 t.2.1 t.2.2) := by
      rw [List.map_map]
      exact List.map_congr_left (fun r hr => h.2.2.2 r hr)
    rw [heq] at hids
    exact List.Nodup.of_map _ hids

/-- C2 amended: after any sequence of merges of batches that are
internally duplicate-free by identity and whose records carry the identity
derived from their own (title, journal, date) — as every fetched batch
does — starting from an empty or well-formed store, the persisted store
holds at most one record per distinct (title, journal, date) triple. -/
theorem store_nodup_triples (batches : List (List Record))
    (file : Option CsvFile) (today : String)
    (hBs : ∀ b ∈ batches, BatchOK b) (hI : StoreInv file) :
    ∃ f', runBatches batches file today = Except.ok f' ∧ NoDupTriples f' := by
  obtain ⟨f', h1, h2⟩ := runBatches_inv batches file today hBs hI
  exact ⟨f', h1, storeInv_noDupTriples f' h2⟩

/-- C2 counterexample: one merge of a batch holding the same identity
twice, into an empty store, persists two rows with the same
(title, journal, date) triple. -/
theorem store_nodup_triples_cex :
    runBatches [[articleAX, articleAY]] none "2024-01-15" =
      Except.ok (some dupBatchFile) ∧
    ¬ (dupBatchFile.rows.map
        (fun r => (r.getD 1 "", r.getD 2 "", r.getD 3 ""))).Nodup := by
  constructor
  · rfl
  · intro hcontra
    have heq : dupBatchFile.rows.map
        (fun r => (r.getD 1 "", r.getD 2 "", r.getD 3 "")) =
        [("A", "J", "2024/01/01"), ("A", "J", "2024/01/01")] := rfl
    rw [heq] at hcontra
    simp at hcontra

/-- Witness for `store_nodup_triples` on a singleton batch into an empty
store. -/
theorem store_nodup_triples_witness :
    ∃ f', runBatches [[articleAX]] none "2024-01-15" = Except.ok f' ∧
      NoDupTriples f' :=
  store_nodup_triples [[articleAX]] none "2024-01-15"
    (by
      intro b hb
      simp only [List.mem_singleton] at hb
      subst hb
      refine ⟨?_, ?_⟩
      · intro a ha
        simp only [List.mem_singleton] at ha
        subst ha
        exact ⟨rfl, rfl, rfl⟩
      · exact List.nodup_singleton _)
    trivial

/-- C1 counterexample: merging the spec's example batch — the same
(title, journal, date) twice with abstracts `"x"` then `"y"` — into an
empty store returns a count of 2, not 1, and re-loading the store yields
the abstract `"y"` of the last occurrence, not `"x"`. -/
theorem save_to_master_dup_batch_cex :
    save_to_master [articleAX, articleAY] none "2024-01-15" =
      Except.ok (2, some dupBatchFile, [dupBatchFile]) ∧
    (2 : Nat) ≠ 1 ∧
    (alookup (load_existing_articles (some dupBatchFile))
        (generate_article_id "A" "J" "2024/01/01")).map
      (fun r => rgetD r "abstract" "") = some "y" ∧
    ("y" : String) ≠ "x" := by
  refine ⟨rfl, by decide, by decide, by decide⟩

/-- C1 amended: on that batch the merge returns a count of 2 and persists
both records; the mapping obtained by re-loading the store afterwards
carries, for that identity, the record of the batch's last occurrence
(abstract `"y"`). -/
theorem save_to_master_dup_batch :
    save_to_master [articleAX, articleAY] none "2024-01-15" =
      Except.ok (2, some dupBatchFile, [dupBatchFile]) ∧
    dupBatchFile.rows.length = 2 ∧
    (alookup (load_existing_articles (some dupBatchFile))
        (generate_article_id "A" "J" "2024/01/01")).map
      (fun r => rgetD r "abstract" "") = some "y" := by
  refine ⟨rfl, rfl, by decide⟩
